import Mathlib

/-!
Verification of the oligostore primer-binding core: a shallow embedding of
`core/services/primer_binding.py`, `core/services/sequence_utils.py`,
`core/services/primer_analysis.py` and `core/forms.py`, with theorems about
the mismatch scanner, the binding-site locator, the reverse-complement
transform, the window renderer and the sequence normalizers.

Python strings are embedded as `List Char`; Python ints that are provably
non-negative in the modelled code paths are embedded as `Nat`, and `Int`
is used where Python arithmetic can go negative (window counts, slice
clamping, negative indexing).
-/

namespace Oligostore

/-- Python slice `l[a:b]` for non-negative bounds: drop `a`, take `b - a`. -/
def pySlice (l : List Char) (a b : Nat) : List Char :=
  (l.drop a).take (b - a)

/-- Python `str.upper` on a single ASCII character. -/
def py_upper (c : Char) : Char :=
  if 'a' ≤ c ∧ c ≤ 'z' then Char.ofNat (c.toNat - 32) else c

/-- The base map of `str.maketrans("ACGT", "TGCA")`: characters outside the
table are left unchanged (Python `str.translate` semantics). -/
def complement (c : Char) : Char :=
  if c = 'A' then 'T'
  else if c = 'C' then 'G'
  else if c = 'G' then 'C'
  else if c = 'T' then 'A'
  else c

/-- `sequence_utils.reverse_complement`: translate through the complement
table, then reverse (`seq.translate(complement)[::-1]`). -/
def reverse_complement (seq : List Char) : List Char :=
  (seq.map complement).reverse

/-- `primer_binding.PrimerBindingHit` dataclass. -/
structure PrimerBindingHit where
  record_id : String
  start : Nat
  «end» : Nat
  strand : String
  mismatches : Nat
  deriving DecidableEq, Repr

/-- One pass of the inner loop of `iter_mismatch_counts`: walk the diagonal
segment `sequence[offset : offset + window_count]` in step with the
accumulator array, incrementing each cell whose template base differs from
`primer_base`.  Cells beyond the end of the segment are left unchanged
(Python's `enumerate` over the segment simply stops). -/
def bumpRow (counts : List Nat) (seg : List Char) (primer_base : Char) : List Nat :=
  match counts, seg with
  | [], _ => []
  | cs, [] => cs
  | c :: cs, s :: ss =>
      (if s ≠ primer_base then c + 1 else c) :: bumpRow cs ss primer_base

/-- The outer loop of `iter_mismatch_counts`
(`for offset, primer_base in enumerate(primer)`): fold the diagonal pass over
every primer position, threading the accumulator array. -/
def accumAll (sequence : List Char) (window_count : Nat) :
    List Char → Nat → List Nat → List Nat
  | [], _, counts => counts
  | primer_base :: rest, offset, counts =>
      accumAll sequence window_count rest (offset + 1)
        (bumpRow counts (pySlice sequence offset (offset + window_count)) primer_base)

/-- `primer_binding.iter_mismatch_counts`, materialised as a list: when
`window_count = len(sequence) - len(primer) + 1 <= 0` the generator yields
nothing; otherwise it yields the accumulated per-offset mismatch counts,
starting from an all-zero array of length `window_count`. -/
def iter_mismatch_counts (sequence primer : List Char) : List Nat :=
  if sequence.length < primer.length then []
  else
    accumAll sequence (sequence.length - primer.length + 1) primer 0
      (List.replicate (sequence.length - primer.length + 1) 0)

/-- The loop body of `scan_sequence` (`for i, mismatches in enumerate(...)`),
as structural recursion over the remaining mismatch counts, with `i` the
index of the head.  `sequence[window_end - 1]` and `primer[-1]` are embedded
with `getD`; both accesses are in range whenever the primer is non-empty
(see `scan_sequenceE` for the bounds-checked variant). -/
def scanLoop (sequence primer : List Char) (strand : String) (max_mismatches : Nat)
    (block_3prime_mismatch : Bool) : List Nat → Nat → List PrimerBindingHit
  | [], _ => []
  | mismatches :: rest, i =>
      let window_end := i + primer.length
      let keep : List PrimerBindingHit :=
        if block_3prime_mismatch ∧
            sequence.getD (window_end - 1) 'A' ≠ primer.getD (primer.length - 1) 'A' then
          []
        else if mismatches ≤ max_mismatches then
          [⟨"", i, window_end, strand, mismatches⟩]
        else []
      keep ++ scanLoop sequence primer strand max_mismatches block_3prime_mismatch rest (i + 1)

/-- `primer_binding.scan_sequence`. -/
def scan_sequence (sequence primer : List Char) (strand : String) (max_mismatches : Nat)
    (block_3prime_mismatch : Bool) : List PrimerBindingHit :=
  scanLoop sequence primer strand max_mismatches block_3prime_mismatch
    (iter_mismatch_counts sequence primer) 0

/-- Python string indexing `l[idx]`, including negative indexing; out-of-range
access is the `IndexError` that Python raises. -/
def pyGet (l : List Char) (idx : Int) : Except String Char :=
  if 0 ≤ idx ∧ idx < (l.length : Int) then Except.ok (l.getD idx.toNat 'A')
  else if -(l.length : Int) ≤ idx ∧ idx < 0 then
    Except.ok (l.getD (idx + (l.length : Int)).toNat 'A')
  else Except.error "IndexError: string index out of range"

/-- Bounds-checked variant of `scanLoop`: the two raw index accesses of the
Python loop (`sequence[window_end - 1]` and `primer[-1]`) go through `pyGet`
and any `IndexError` aborts the whole call, exactly as a raised exception
would. -/
def scanLoopE (sequence primer : List Char) (strand : String) (max_mismatches : Nat)
    (block_3prime_mismatch : Bool) : List Nat → Nat → Except String (List PrimerBindingHit)
  | [], _ => Except.ok []
  | mismatches :: rest, i =>
      let window_end := i + primer.length
      let step : Except String (List PrimerBindingHit) :=
        if block_3prime_mismatch then
          match pyGet sequence ((window_end : Int) - 1), pyGet primer (-1) with
          | Except.ok sc, Except.ok pc =>
              if sc ≠ pc then Except.ok []
              else if mismatches ≤ max_mismatches then
                Except.ok [⟨"", i, window_end, strand, mismatches⟩]
              else Except.ok []
          | Except.error e, _ => Except.error e
          | Except.ok _, Except.error e => Except.error e
        else if mismatches ≤ max_mismatches then
          Except.ok [⟨"", i, window_end, strand, mismatches⟩]
        else Except.ok []
      match step with
      | Except.error e => Except.error e
      | Except.ok keep =>
          match scanLoopE sequence primer strand max_mismatches block_3prime_mismatch
              rest (i + 1) with
          | Except.error e => Except.error e
          | Except.ok tail => Except.ok (keep ++ tail)

/-- `scan_sequence` with Python exception tracking. -/
def scan_sequenceE (sequence primer : List Char) (strand : String) (max_mismatches : Nat)
    (block_3prime_mismatch : Bool) : Except String (List PrimerBindingHit) :=
  scanLoopE sequence primer strand max_mismatches block_3prime_mismatch
    (iter_mismatch_counts sequence primer) 0

/-- A loaded sequence record (the identifier and raw sequence exposed by one
`SeqRecord` coming out of `sequence_loader.load_sequences`). -/
structure SequenceRecord where
  id : String
  seq : List Char
  deriving DecidableEq, Repr

/-- `primer_binding.analyze_primer_binding`, with the record stream produced
by `load_sequences` supplied as a list: uppercase the primer, take its
reverse complement, and for each record append the stamped forward-strand
hits followed by the stamped reverse-strand hits. -/
def analyze_primer_binding (primer_sequence : List Char) (records : List SequenceRecord)
    (max_mismatches : Nat) (block_3prime_mismatch : Bool) : List PrimerBindingHit :=
  let primer := primer_sequence.map py_upper
  let primer_rc := reverse_complement primer
  records.foldl
    (fun results record =>
      let seq := record.seq.map py_upper
      let fwd_hits := scan_sequence seq primer "+" max_mismatches block_3prime_mismatch
      let rev_hits := scan_sequence seq primer_rc "-" max_mismatches block_3prime_mismatch
      results ++ (fwd_hits ++ rev_hits).map
        (fun h => ⟨record.id, h.start, h.«end», h.strand, h.mismatches⟩))
    []

/-- The literal `"..."` marker used by `window_sequence`. -/
def ellipsis : List Char := ['.', '.', '.']

/-- `primer_analysis.window_sequence`: `None` position propagates all-`None`;
otherwise clamp `[pos - flank, pos + primer_len + flank)` to the sequence,
add `"..."` on the sides that were cut, and report the match offset inside
the decorated window. -/
def window_sequence (seq : List Char) (pos : Option Nat) (primer_len flank : Nat) :
    Option (List Char) × Option Nat × Option Nat :=
  match pos with
  | none => (none, none, none)
  | some p =>
      let start := p - flank
      let stop := min seq.length (p + primer_len + flank)
      let window0 := pySlice seq start stop
      let left_offset := if 0 < start then 3 else 0
      let window1 := if 0 < start then ellipsis ++ window0 else window0
      let window2 := if stop < seq.length then window1 ++ ellipsis else window1
      (some window2, some ((p - start) + left_offset), some primer_len)

/-- Membership in Python's `\s` class, restricted to the ASCII whitespace
characters (space, tab, newline, carriage return, vertical tab, form feed). -/
def isPySpace (c : Char) : Bool :=
  c == ' ' || c == '\t' || c == '\n' || c == '\r' || c == Char.ofNat 11 || c == Char.ofNat 12

/-- The shared cleaning step of both normalizers:
`re.sub(r"\s+", "", raw).upper()`. -/
def cleanWhitespaceUpper (raw : List Char) : List Char :=
  (raw.filter (fun c => !isPySpace c)).map py_upper

/-- Membership in the alphabet `[ACGTN]` of `sanitize_sequence`. -/
def isACGTN (c : Char) : Bool :=
  c == 'A' || c == 'C' || c == 'G' || c == 'T' || c == 'N'

/-- Membership in the alphabet `[ACGT]` used by `clean_sequence_value` when
`allow_n` is false. -/
def isACGT (c : Char) : Bool :=
  c == 'A' || c == 'C' || c == 'G' || c == 'T'

/-- Insert a character into an ascending list (helper for Python `sorted`). -/
def insertChar (c : Char) : List Char → List Char
  | [] => [c]
  | x :: xs => if c ≤ x then c :: x :: xs else x :: insertChar c xs

/-- Ascending insertion sort on characters (Python `sorted` by code point). -/
def sortChars : List Char → List Char
  | [] => []
  | x :: xs => insertChar x (sortChars xs)

/-- Python `sorted(set(l))`: the distinct characters of `l` in ascending
order. -/
def sortedUnique (l : List Char) : List Char :=
  sortChars l.dedup

/-- Python `", ".join(...)` over single-character strings. -/
def joinCommaSep : List Char → List Char
  | [] => []
  | [c] => [c]
  | c :: rest => c :: ',' :: ' ' :: joinCommaSep rest

/-- The `ValueError` message of `sanitize_sequence`, given the sorted
de-duplicated invalid characters. -/
def invalidCharsMessage (invalid : List Char) : String :=
  "Sequence contains invalid characters: " ++ String.mk (joinCommaSep invalid)

/-- `primer_analysis.sanitize_sequence`: reject empty input, strip whitespace
and uppercase, then require a full match of `[ACGTN]+`; on failure the error
lists the offending characters, sorted and de-duplicated. -/
def sanitize_sequence (raw : List Char) : Except String (List Char) :=
  if raw.isEmpty then Except.error "No sequence provided."
  else
    let cleaned := cleanWhitespaceUpper raw
    if cleaned ≠ [] ∧ cleaned.all isACGTN then Except.ok cleaned
    else
      Except.error (invalidCharsMessage (sortedUnique (cleaned.filter (fun c => !isACGTN c))))

/-- The fixed `ValidationError` message of `clean_sequence_value` for an
alphabet failure (it names the allowed alphabet, never the offending
characters). -/
def alphabetMessage (allow_n : Bool) : String :=
  "Sequence may only contain the characters A, C, G, T"
    ++ (if allow_n then " or N" else "") ++ " (no spaces or numbers)."

/-- The alphabet full-match test of `clean_sequence_value`
(`re.fullmatch(r"[ACGTN]+" if allow_n else r"[ACGT]+", seq)`). -/
def alphabetCheck (seq : List Char) (allow_n : Bool) : Except String (List Char) :=
  if seq ≠ [] ∧ seq.all (if allow_n then isACGTN else isACGT) then Except.ok seq
  else Except.error (alphabetMessage allow_n)

/-- `forms.clean_sequence_value`: strip whitespace and uppercase, enforce the
optional maximum length, then enforce the alphabet. -/
def clean_sequence_value (value : List Char) (allow_n : Bool) (max_length : Option Nat) :
    Except String (List Char) :=
  let seq := cleanWhitespaceUpper value
  match max_length with
  | some ml =>
      if ml < seq.length then
        Except.error ("Sequence must be " ++ toString ml ++ " bases or fewer.")
      else alphabetCheck seq allow_n
  | none => alphabetCheck seq allow_n

/-- Spec-side mismatch formula: the number of positions `j` in
`[0, len(P))` where `T[i+j] ≠ P[j]`
(`sum(1 for j in range(len(P)) if T[i+j] != P[j])`). -/
def mismatch_count_spec (T P : List Char) (i : Nat) : Nat :=
  (List.range P.length).countP (fun j => T.getD (i + j) 'A' != P.getD j 'A')

/-- Mismatch indicator for an optional template character against a primer
base: `1` when the character is present and differs, else `0`. -/
def diffInd (o : Option Char) (b : Char) : Nat :=
  match o with
  | some s => if s ≠ b then 1 else 0
  | none => 0

/-- Total contribution of the remaining primer positions to accumulator cell
`i`, mirroring the outer loop of `iter_mismatch_counts`. -/
def rowSum (T : List Char) (wc : Nat) : List Char → Nat → Nat → Nat
  | [], _, _ => 0
  | b :: rest, offset, i =>
      diffInd (pySlice T offset (offset + wc))[i]? b + rowSum T wc rest (offset + 1) i

theorem bumpRow_length (counts : List Nat) (seg : List Char) (b : Char) :
    (bumpRow counts seg b).length = counts.length := by
  induction counts generalizing seg with
  | nil => cases seg <;> simp [bumpRow]
  | cons c cs ih =>
    cases seg with
    | nil => simp [bumpRow]
    | cons s ss => simp [bumpRow, ih]

theorem bumpRow_getElem? (counts : List Nat) (seg : List Char) (b : Char) (i : Nat) :
    (bumpRow counts seg b)[i]? = counts[i]?.map (fun c => c + diffInd seg[i]? b) := by
  induction counts generalizing seg i with
  | nil => cases seg <;> simp [bumpRow]
  | cons c cs ih =>
    cases seg with
    | nil =>
      cases i with
      | zero => simp [bumpRow, diffInd]
      | succ n =>
        simp only [bumpRow]
        cases h : (c :: cs)[n + 1]? <;> simp [h, diffInd]
    | cons s ss =>
      cases i with
      | zero => by_cases hsb : s = b <;> simp [bumpRow, diffInd, hsb]
      | succ n => simp [bumpRow, ih]

theorem accumAll_length (T : List Char) (wc : Nat) (primer : List Char) :
    ∀ (offset : Nat) (counts : List Nat),
      (accumAll T wc primer offset counts).length = counts.length := by
  induction primer with
  | nil => intro offset counts; simp [accumAll]
  | cons b rest ih =>
    intro offset counts
    rw [accumAll, ih, bumpRow_length]

theorem accumAll_getElem? (T : List Char) (wc : Nat) (primer : List Char) :
    ∀ (offset : Nat) (counts : List Nat) (i : Nat),
      (accumAll T wc primer offset counts)[i]? =
        counts[i]?.map (fun c => c + rowSum T wc primer offset i) := by
  induction primer with
  | nil =>
    intro offset counts i
    cases h : counts[i]? <;> simp [accumAll, rowSum, h]
  | cons b rest ih =>
    intro offset counts i
    rw [accumAll, ih, bumpRow_getElem?]
    cases h : counts[i]? <;> simp [rowSum, h, Nat.add_assoc]

theorem pySlice_getElem? (l : List Char) (a b i : Nat) :
    (pySlice l a b)[i]? = if i < b - a then l[a + i]? else none := by
  simp [pySlice, List.getElem?_take, List.getElem?_drop]

theorem rowSum_eq_countP (T : List Char) (wc : Nat) :
    ∀ (P : List Char) (offset i : Nat), i < wc → offset + i + P.length ≤ T.length →
      rowSum T wc P offset i =
        (List.range P.length).countP
          (fun j => T.getD (offset + i + j) 'A' != P.getD j 'A') := by
  intro P
  induction P with
  | nil => intro offset i hi hlen; simp [rowSum]
  | cons b rest ih =>
    intro offset i hi hlen
    rw [rowSum]
    have hsl : (pySlice T offset (offset + wc))[i]? = T[offset + i]? := by
      rw [pySlice_getElem?]
      simp [hi]
    have hin : offset + i < T.length := by simp at hlen; omega
    have hTg : T[offset + i]? = some (T.getD (offset + i) 'A') := by
      rw [List.getD_eq_getElem?_getD, List.getElem?_eq_getElem hin]
      rfl
    rw [hsl, hTg]
    rw [List.length_cons, List.range_succ_eq_map, List.countP_cons, List.countP_map]
    have hidx : ∀ j : Nat, offset + i + Nat.succ j = offset + 1 + i + j := by
      intro j; omega
    have htail :
        ((List.range rest.length).countP
          ((fun j => T.getD (offset + i + j) 'A' != (b :: rest).getD j 'A') ∘ Nat.succ)) =
        rowSum T wc rest (offset + 1) i := by
      rw [ih (offset + 1) i hi (by simp at hlen ⊢; omega)]
      apply List.countP_congr
      intro j _
      simp only [Function.comp, hidx]
      rfl
    rw [htail]
    have hhead : diffInd (some (T.getD (offset + i) 'A')) b =
        if (T.getD (offset + i + 0) 'A' != (b :: rest).getD 0 'A') = true then 1 else 0 := by
      simp [diffInd, bne_iff_ne]
    rw [hhead]
    omega

theorem iter_mismatch_counts_length (T P : List Char) :
    (iter_mismatch_counts T P).length =
      if T.length < P.length then 0 else T.length - P.length + 1 := by
  rw [iter_mismatch_counts]
  split <;> simp [accumAll_length]

theorem iter_mismatch_counts_getElem? (T P : List Char) (i : Nat)
    (hik : i + P.length ≤ T.length) :
    (iter_mismatch_counts T P)[i]? = some (mismatch_count_spec T P i) := by
  have hnk : ¬ T.length < P.length := by omega
  rw [iter_mismatch_counts, if_neg hnk, accumAll_getElem?, List.getElem?_replicate,
    if_pos (by omega : i < T.length - P.length + 1)]
  rw [rowSum_eq_countP T (T.length - P.length + 1) P 0 i (by omega) (by omega)]
  simp [mismatch_count_spec]

theorem scanLoop_mem (T P : List Char) (s : String) (m : Nat) (b : Bool) :
    ∀ (counts : List Nat) (i0 : Nat) (h : PrimerBindingHit),
      h ∈ scanLoop T P s m b counts i0 →
      ∃ j, j < counts.length ∧ counts[j]? = some h.mismatches ∧
        h.record_id = "" ∧ h.start = i0 + j ∧ h.«end» = h.start + P.length ∧
        h.strand = s ∧ h.mismatches ≤ m ∧
        (b = true → T.getD (h.start + P.length - 1) 'A' = P.getD (P.length - 1) 'A') := by
  intro counts
  induction counts with
  | nil => intro i0 h hmem; simp [scanLoop] at hmem
  | cons mc rest ih =>
    intro i0 h hmem
    simp only [scanLoop] at hmem
    rcases List.mem_append.mp hmem with hk | hr
    · by_cases hgate : b = true ∧ T.getD (i0 + P.length - 1) 'A' ≠ P.getD (P.length - 1) 'A'
      · rw [if_pos hgate] at hk
        simp at hk
      · rw [if_neg hgate] at hk
        by_cases hbud : mc ≤ m
        · rw [if_pos hbud] at hk
          have hh : h = ⟨"", i0, i0 + P.length, s, mc⟩ := by simpa using hk
          subst hh
          refine ⟨0, by simp, by simp, rfl, by simp, rfl, rfl, hbud, ?_⟩
          intro hb
          by_contra hne
          exact hgate ⟨hb, hne⟩
        · rw [if_neg hbud] at hk
          simp at hk
    · rcases ih (i0 + 1) h hr with ⟨j, hj, hcnt, hrec, hst, hend, hstr, hmis, hgate⟩
      exact ⟨j + 1, by simpa using hj, by simpa using hcnt, hrec, by omega, hend, hstr,
        hmis, hgate⟩

theorem scanLoop_map_start (T P : List Char) (s : String) (m : Nat) (b : Bool) :
    ∀ (counts : List Nat) (i0 : Nat),
      (scanLoop T P s m b counts i0).map (fun h => h.start) =
        ((List.range counts.length).filter
          (fun j =>
            decide (¬(b = true ∧
                T.getD (i0 + j + P.length - 1) 'A' ≠ P.getD (P.length - 1) 'A') ∧
              counts.getD j 0 ≤ m))).map (fun j => i0 + j) := by
  intro counts
  induction counts with
  | nil => intro i0; simp [scanLoop]
  | cons mc rest ih =>
    intro i0
    have hpred :
        ((fun j =>
            decide (¬(b = true ∧
                T.getD (i0 + j + P.length - 1) 'A' ≠ P.getD (P.length - 1) 'A') ∧
              (mc :: rest).getD j 0 ≤ m)) ∘ Nat.succ) =
          (fun j =>
            decide (¬(b = true ∧
                T.getD (i0 + 1 + j + P.length - 1) 'A' ≠ P.getD (P.length - 1) 'A') ∧
              rest.getD j 0 ≤ m)) := by
      funext j
      have hidx : i0 + Nat.succ j + P.length - 1 = i0 + 1 + j + P.length - 1 := by omega
      simp only [Function.comp, hidx, List.getD_cons_succ]
    have hfun : ((fun j : Nat => i0 + j) ∘ Nat.succ) = fun j : Nat => i0 + 1 + j := by
      funext j
      simp only [Function.comp, Nat.succ_eq_add_one]
      omega
    simp only [scanLoop, List.map_append, List.length_cons, List.range_succ_eq_map,
      List.filter_cons, List.filter_map, hpred, Nat.add_zero, List.getD_cons_zero]
    by_cases hcond : ¬(b = true ∧
        T.getD (i0 + P.length - 1) 'A' ≠ P.getD (P.length - 1) 'A') ∧ mc ≤ m
    · rw [if_pos (decide_eq_true hcond), if_neg hcond.1, if_pos hcond.2]
      simp only [List.map_cons, List.map_nil, List.map_map, hfun, List.cons_append,
        List.nil_append]
      rw [← ih (i0 + 1)]
      simp
    · have hkeep :
          (if b = true ∧ T.getD (i0 + P.length - 1) 'A' ≠ P.getD (P.length - 1) 'A' then
            ([] : List PrimerBindingHit)
          else if mc ≤ m then
            [⟨"", i0, i0 + P.length, s, mc⟩]
          else []) = [] := by
        by_cases hgate : b = true ∧ T.getD (i0 + P.length - 1) 'A' ≠ P.getD (P.length - 1) 'A'
        · rw [if_pos hgate]
        · rw [if_neg hgate]
          have hbud : ¬ mc ≤ m := fun hb => hcond ⟨hgate, hb⟩
          rw [if_neg hbud]
      have hnd : ¬(decide (¬(b = true ∧
          T.getD (i0 + P.length - 1) 'A' ≠ P.getD (P.length - 1) 'A') ∧ mc ≤ m) = true) := by
        simp only [decide_eq_true_eq]
        exact hcond
      rw [if_neg hnd, hkeep]
      simp only [List.map_nil, List.nil_append, List.map_map, hfun]
      rw [← ih (i0 + 1)]

theorem getD_eq_getElem (l : List Char) (n : Nat) (d : Char) (h : n < l.length) :
    l.getD n d = l[n] := by
  rw [List.getD_eq_getElem?_getD, List.getElem?_eq_getElem h]
  rfl

theorem scan_sequence_mem (T P : List Char) (s : String) (m : Nat) (b : Bool)
    (h : PrimerBindingHit) (hmem : h ∈ scan_sequence T P s m b) :
    h.start + P.length ≤ T.length + (if P.length = 0 then 1 else 0) ∧
      h.record_id = "" ∧ h.«end» = h.start + P.length ∧ h.strand = s ∧
      h.mismatches ≤ m ∧
      (P.length ≠ 0 → h.mismatches = mismatch_count_spec T P h.start) ∧
      (b = true → T.getD (h.start + P.length - 1) 'A' = P.getD (P.length - 1) 'A') := by
  obtain ⟨j, hj, hcnt, hrec, hst, hend, hstr, hmis, hgate⟩ :=
    scanLoop_mem T P s m b (iter_mismatch_counts T P) 0 h hmem
  rw [iter_mismatch_counts_length] at hj
  by_cases hnk : T.length < P.length
  · rw [if_pos hnk] at hj
    omega
  · rw [if_neg hnk] at hj
    have hstj : h.start = j := by omega
    subst hstj
    have hik : h.start + P.length ≤ T.length := by omega
    refine ⟨by omega, hrec, hend, hstr, hmis, ?_, hgate⟩
    intro _
    rw [iter_mismatch_counts_getElem? T P h.start hik] at hcnt
    exact (Option.some.inj hcnt).symm

theorem mismatch_count_spec_eq_zero_iff (T P : List Char) (i : Nat)
    (hik : i + P.length ≤ T.length) :
    mismatch_count_spec T P i = 0 ↔ pySlice T i (i + P.length) = P := by
  rw [mismatch_count_spec, List.countP_eq_zero]
  constructor
  · intro hall
    apply List.ext_getElem?
    intro j
    rw [pySlice_getElem?]
    by_cases hj : j < P.length
    · rw [if_pos (by omega)]
      have hTj : i + j < T.length := by omega
      have hch := hall j (List.mem_range.mpr hj)
      rw [bne_iff_ne, ne_eq, not_not, getD_eq_getElem T _ _ hTj, getD_eq_getElem P _ _ hj]
        at hch
      rw [List.getElem?_eq_getElem hTj, List.getElem?_eq_getElem hj, hch]
    · rw [if_neg (by omega)]
      exact (List.getElem?_eq_none (by omega)).symm
  · intro heq j hjr
    have hj : j < P.length := List.mem_range.mp hjr
    have hTj : i + j < T.length := by omega
    have hch : P[j]? = (pySlice T i (i + P.length))[j]? := by rw [heq]
    rw [pySlice_getElem?, if_pos (by omega), List.getElem?_eq_getElem hTj,
      List.getElem?_eq_getElem hj] at hch
    rw [bne_iff_ne, ne_eq, not_not, getD_eq_getElem T _ _ hTj, getD_eq_getElem P _ _ hj]
    exact (Option.some.inj hch).symm

theorem slice_eq_last (T P : List Char) (i : Nat) (hP : P ≠ [])
    (hik : i + P.length ≤ T.length) (heq : pySlice T i (i + P.length) = P) :
    T.getD (i + P.length - 1) 'A' = P.getD (P.length - 1) 'A' := by
  have hk : 0 < P.length := List.length_pos.mpr hP
  have h1 : P[P.length - 1]? = (pySlice T i (i + P.length))[P.length - 1]? := by rw [heq]
  rw [pySlice_getElem?, if_pos (by omega)] at h1
  have hTi : i + (P.length - 1) < T.length := by omega
  have hPi : P.length - 1 < P.length := by omega
  rw [List.getElem?_eq_getElem hTi, List.getElem?_eq_getElem hPi] at h1
  rw [getD_eq_getElem T _ _ (by omega), getD_eq_getElem P _ _ hPi]
  have hidx : i + P.length - 1 = i + (P.length - 1) := by omega
  have h2 : T[i + P.length - 1]? = T[i + (P.length - 1)]? := by rw [hidx]
  rw [List.getElem?_eq_getElem (show i + P.length - 1 < T.length by omega),
    List.getElem?_eq_getElem hTi] at h2
  rw [Option.some.inj h2]
  exact (Option.some.inj h1).symm

theorem scan_sequence_map_start_zero (T P : List Char) (s : String) (b : Bool)
    (hP : P ≠ []) (hk : P.length ≤ T.length) :
    (scan_sequence T P s 0 b).map (fun h => h.start) =
      (List.range (T.length - P.length + 1)).filter
        (fun i => decide (pySlice T i (i + P.length) = P)) := by
  rw [scan_sequence, scanLoop_map_start]
  have hlen : (iter_mismatch_counts T P).length = T.length - P.length + 1 := by
    rw [iter_mismatch_counts_length, if_neg (by omega)]
  rw [hlen]
  have hfil : (List.range (T.length - P.length + 1)).filter
        (fun j => decide (¬(b = true ∧
            T.getD (0 + j + P.length - 1) 'A' ≠ P.getD (P.length - 1) 'A') ∧
          (iter_mismatch_counts T P).getD j 0 ≤ 0)) =
      (List.range (T.length - P.length + 1)).filter
        (fun i => decide (pySlice T i (i + P.length) = P)) := by
    apply List.filter_congr
    intro j hjr
    have hj : j < T.length - P.length + 1 := List.mem_range.mp hjr
    have hik : j + P.length ≤ T.length := by omega
    have hcget : (iter_mismatch_counts T P).getD j 0 = mismatch_count_spec T P j := by
      rw [List.getD_eq_getElem?_getD, iter_mismatch_counts_getElem? T P j hik]
      rfl
    simp only [decide_eq_decide, hcget, Nat.zero_add, Nat.le_zero]
    rw [mismatch_count_spec_eq_zero_iff T P j hik]
    constructor
    · exact fun hc => hc.2
    · intro hs
      refine ⟨?_, hs⟩
      intro hcon
      exact hcon.2 (slice_eq_last T P j hP hik hs)
  rw [hfil]
  have hid : ((List.range (T.length - P.length + 1)).filter
      (fun i => decide (pySlice T i (i + P.length) = P))).map (fun j => 0 + j) =
      ((List.range (T.length - P.length + 1)).filter
      (fun i => decide (pySlice T i (i + P.length) = P))) := by
    simp
  rw [hid]

theorem foldl_append_eq_flatten {α β : Type} (f : α → List β) (records : List α) :
    ∀ acc : List β,
      records.foldl (fun res r => res ++ f r) acc = acc ++ (records.map f).flatten := by
  induction records with
  | nil => intro acc; simp
  | cons r rs ih =>
    intro acc
    simp only [List.foldl_cons, List.map_cons, List.flatten_cons]
    rw [ih, List.append_assoc]

theorem pyGet_inrange (l : List Char) (n : Nat) (h : n < l.length) :
    pyGet l (n : Int) = Except.ok (l.getD n 'A') := by
  rw [pyGet, if_pos (by omega)]
  rw [Int.toNat_natCast]

theorem pyGet_neg_one (P : List Char) (hP : P ≠ []) :
    pyGet P (-1) = Except.ok (P.getD (P.length - 1) 'A') := by
  have hk : 0 < P.length := List.length_pos.mpr hP
  rw [pyGet, if_neg (by omega), if_pos (by omega)]
  have hidx : ((-1 : Int) + (P.length : Int)).toNat = P.length - 1 := by omega
  rw [hidx]

theorem scanLoopE_ok (T P : List Char) (s : String) (m : Nat) (b : Bool) (hP : P ≠ [])
    (hk : P.length ≤ T.length) :
    ∀ (counts : List Nat) (i0 : Nat),
      i0 + counts.length ≤ T.length - P.length + 1 →
      scanLoopE T P s m b counts i0 = Except.ok (scanLoop T P s m b counts i0) := by
  intro counts
  induction counts with
  | nil => intro i0 _; rfl
  | cons mc rest ih =>
    intro i0 hb
    rw [List.length_cons] at hb
    have hlen : 0 < P.length := List.length_pos.mpr hP
    have hik : i0 + P.length ≤ T.length := by omega
    have hcast : ((i0 + P.length : Nat) : Int) - 1 = ((i0 + P.length - 1 : Nat) : Int) := by
      omega
    have hrec := ih (i0 + 1) (by omega)
    rw [scanLoopE, scanLoop, hcast, pyGet_inrange T (i0 + P.length - 1) (by omega),
      pyGet_neg_one P hP, hrec]
    cases b with
    | false => by_cases hbud : mc ≤ m <;> simp [hbud]
    | true =>
      by_cases hg : T[i0 + P.length - 1]?.getD 'A' = P[P.length - 1]?.getD 'A'
      · by_cases hbud : mc ≤ m <;> simp [hg, hbud]
      · simp [hg]

theorem scan_sequenceE_ok (T P : List Char) (s : String) (m : Nat) (b : Bool) (hP : P ≠ []) :
    scan_sequenceE T P s m b = Except.ok (scan_sequence T P s m b) := by
  rw [scan_sequenceE, scan_sequence]
  by_cases hk : T.length < P.length
  · rw [iter_mismatch_counts, if_pos hk]
    rfl
  · apply scanLoopE_ok T P s m b hP (by omega)
    rw [iter_mismatch_counts_length, if_neg hk]
    omega

theorem complement_complement (c : Char) : complement (complement c) = c := by
  by_cases h1 : c = 'A'
  · subst h1; decide
  · by_cases h2 : c = 'C'
    · subst h2; decide
    · by_cases h3 : c = 'G'
      · subst h3; decide
      · by_cases h4 : c = 'T'
        · subst h4; decide
        · have hc : complement c = c := by
            rw [complement, if_neg h1, if_neg h2, if_neg h3, if_neg h4]
          rw [hc, hc]

theorem reverse_complement_involutive (seq : List Char) :
    reverse_complement (reverse_complement seq) = seq := by
  rw [reverse_complement, reverse_complement, List.map_reverse, List.reverse_reverse,
    List.map_map]
  have hcc : complement ∘ complement = id := by
    funext c
    exact complement_complement c
  rw [hcc, List.map_id]

theorem reverse_complement_length (seq : List Char) :
    (reverse_complement seq).length = seq.length := by
  simp [reverse_complement]

theorem reverse_complement_getD (seq : List Char) (i : Nat) (hi : i < seq.length) :
    (reverse_complement seq).getD (seq.length - 1 - i) 'A' = complement (seq.getD i 'A') := by
  rw [List.getD_eq_getElem?_getD, List.getD_eq_getElem?_getD, reverse_complement]
  rw [List.getElem?_reverse (by simp; omega)]
  have hidx : (seq.map complement).length - 1 - (seq.length - 1 - i) = i := by simp; omega
  rw [hidx, List.getElem?_map, List.getElem?_eq_getElem hi]
  rfl

theorem complement_eq_self_of_not_base (c : Char)
    (h1 : c ≠ 'A') (h2 : c ≠ 'C') (h3 : c ≠ 'G') (h4 : c ≠ 'T') : complement c = c := by
  rw [complement, if_neg h1, if_neg h2, if_neg h3, if_neg h4]

/-- C1: for every template `T`, every non-empty primer `P`, and every
candidate offset `i` (`i + len(P) ≤ len(T)`), the mismatch count computed by
the scanner for offset `i` equals the number of positions `j` in
`[0, len(P))` where `T[i+j] ≠ P[j]`, and every returned hit's `mismatches`
field carries exactly this value for its start offset. -/
theorem claim_C1_mismatch_count_correct (T P : List Char) (s : String) (m : Nat) (b : Bool)
    (i : Nat) (hP : P ≠ []) (hik : i + P.length ≤ T.length) :
    (iter_mismatch_counts T P)[i]? =
      some ((List.range P.length).countP (fun j => T.getD (i + j) 'A' != P.getD j 'A')) ∧
    (∀ h ∈ scan_sequence T P s m b, h.start = i →
      h.mismatches =
        (List.range P.length).countP (fun j => T.getD (i + j) 'A' != P.getD j 'A')) := by
  constructor
  · exact iter_mismatch_counts_getElem? T P i hik
  · intro h hmem hst
    have hm := (scan_sequence_mem T P s m b h hmem).2.2.2.2.2.1
      (fun h0 => hP (List.length_eq_zero.mp h0))
    rw [hst] at hm
    simpa [mismatch_count_spec] using hm

/-- C1 witness: `T = "AAACCC"`, `P = "AAA"`, offset `1` has exactly one
mismatch. -/
theorem claim_C1_witness :
    (iter_mismatch_counts (String.toList "AAACCC") (String.toList "AAA"))[1]? =
      some ((List.range (String.toList "AAA").length).countP
        (fun j =>
          (String.toList "AAACCC").getD (1 + j) 'A' != (String.toList "AAA").getD j 'A')) :=
  (claim_C1_mismatch_count_correct (String.toList "AAACCC") (String.toList "AAA") "+" 2 true 1
    (by decide) (by decide)).1

/-- C2: for every template `T` and non-empty primer `P` with
`len(P) ≤ len(T)`, scanning with `max_mismatches = 0` returns hits at exactly
the offsets `i` where `T[i:i+len(P)] = P`, in ascending offset order (the
start offsets are the filter of the ascending candidate range), each with
`mismatches = 0`. -/
theorem claim_C2_exact_zero_mismatch (T P : List Char) (s : String) (b : Bool)
    (hP : P ≠ []) (hk : P.length ≤ T.length) :
    (scan_sequence T P s 0 b).map (fun h => h.start) =
      (List.range (T.length - P.length + 1)).filter
        (fun i => decide (pySlice T i (i + P.length) = P)) ∧
    ∀ h ∈ scan_sequence T P s 0 b, h.mismatches = 0 := by
  refine ⟨scan_sequence_map_start_zero T P s b hP hk, ?_⟩
  intro h hmem
  exact Nat.le_zero.mp (scan_sequence_mem T P s 0 b h hmem).2.2.2.2.1

/-- C2 witness: `T = "AAACCC"`, `P = "AAA"` at zero budget hits exactly
offset `0`. -/
theorem claim_C2_witness :
    (scan_sequence (String.toList "AAACCC") (String.toList "AAA") "+" 0 true).map
        (fun h => h.start) =
      (List.range ((String.toList "AAACCC").length - (String.toList "AAA").length + 1)).filter
        (fun i =>
          decide (pySlice (String.toList "AAACCC") i (i + (String.toList "AAA").length) =
            String.toList "AAA")) :=
  (claim_C2_exact_zero_mismatch (String.toList "AAACCC") (String.toList "AAA") "+" true
    (by decide) (by decide)).1

/-- C3: with `block_3prime_mismatch = true` the scanner never returns a hit
whose final template base differs from the primer's 3-prime base, for every
mismatch budget `m` (so the rejection is independent of the budget): every
returned hit agrees at the terminal base, and an offset whose terminal base
disagrees is the start of no hit. -/
theorem claim_C3_three_prime_gate (T P : List Char) (s : String) (m : Nat)
    (hP : P ≠ []) :
    (∀ h ∈ scan_sequence T P s m true,
      T.getD (h.start + P.length - 1) 'A' = P.getD (P.length - 1) 'A') ∧
    (∀ i : Nat, T.getD (i + P.length - 1) 'A' ≠ P.getD (P.length - 1) 'A' →
      ∀ h ∈ scan_sequence T P s m true, h.start ≠ i) := by
  constructor
  · intro h hmem
    exact (scan_sequence_mem T P s m true h hmem).2.2.2.2.2.2 rfl
  · intro i hne h hmem hst
    exact hne (hst ▸ (scan_sequence_mem T P s m true h hmem).2.2.2.2.2.2 rfl)

/-- C3 witness: the hit at offset `3` of `T = "ACGACT"`, `P = "ACT"` agrees
at the 3-prime base. -/
theorem claim_C3_witness :
    (String.toList "ACGACT").getD (3 + (String.toList "ACT").length - 1) 'A' =
      (String.toList "ACT").getD ((String.toList "ACT").length - 1) 'A' :=
  (claim_C3_three_prime_gate (String.toList "ACGACT") (String.toList "ACT") "+" 2
    (by decide)).1 ⟨"", 3, 6, "+", 0⟩ (by decide)

/-- C5: every hit produced by a scan with non-empty primer `P`, a strand
label `s` that is `+` or `-`, and budget `m` satisfies the data-model
invariant:
`end - start = len(P)`, `strand = s`, `end ≤ len(template)` (starts are
naturally non-negative), and `mismatches ≤ m`. -/
theorem claim_C5_hit_invariants (T P : List Char) (s : String) (m : Nat) (b : Bool)
    (hP : P ≠ []) (hs : s = "+" ∨ s = "-") :
    ∀ h ∈ scan_sequence T P s m b,
      h.«end» - h.start = P.length ∧ h.strand = s ∧
      (h.strand = "+" ∨ h.strand = "-") ∧ h.«end» ≤ T.length ∧ h.mismatches ≤ m := by
  intro h hmem
  obtain ⟨hrange, _, hend, hstr, hmis, _, _⟩ := scan_sequence_mem T P s m b h hmem
  have hlen : P.length ≠ 0 := fun h0 => hP (List.length_eq_zero.mp h0)
  rw [if_neg hlen] at hrange
  exact ⟨by omega, hstr, by rw [hstr]; exact hs, by omega, hmis⟩

/-- C5 witness: the single hit of `T = "AAACCC"`, `P = "AAA"` at budget `0`
satisfies the invariants. -/
theorem claim_C5_witness :
    (⟨"", 0, 3, "+", 0⟩ : PrimerBindingHit).«end» ≤ (String.toList "AAACCC").length ∧
    (⟨"", 0, 3, "+", 0⟩ : PrimerBindingHit).mismatches ≤ 0 :=
  ⟨(claim_C5_hit_invariants (String.toList "AAACCC") (String.toList "AAA") "+" 0 true
      (by decide) (Or.inl rfl) ⟨"", 0, 3, "+", 0⟩ (by decide)).2.2.2.1,
   (claim_C5_hit_invariants (String.toList "AAACCC") (String.toList "AAA") "+" 0 true
      (by decide) (Or.inl rfl) ⟨"", 0, 3, "+", 0⟩ (by decide)).2.2.2.2⟩

/-- C4: the Binding-Site Locator returns, in order, one block per record (in
load order), each block being the stamped forward-strand hits followed by
the stamped reverse-strand hits; every hit is stamped with its record's
identifier, hits of the `+` scan carry strand `+` and hits of the `-` scan
carry strand `-`, and the result is the plain concatenation (no
deduplication, no re-sorting). -/
theorem claim_C4_locator_ordering (primer : List Char) (records : List SequenceRecord)
    (m : Nat) (b : Bool) :
    analyze_primer_binding primer records m b =
      (records.map (fun record =>
        (scan_sequence (record.seq.map py_upper) (primer.map py_upper) "+" m b ++
         scan_sequence (record.seq.map py_upper)
           (reverse_complement (primer.map py_upper)) "-" m b).map
          (fun h => (⟨record.id, h.start, h.«end», h.strand, h.mismatches⟩ :
            PrimerBindingHit)))).flatten ∧
    (∀ (T Q : List Char) (str : String), ∀ h ∈ scan_sequence T Q str m b,
      h.strand = str) ∧
    (∀ record ∈ records, ∀ h ∈
        (scan_sequence (record.seq.map py_upper) (primer.map py_upper) "+" m b ++
         scan_sequence (record.seq.map py_upper)
           (reverse_complement (primer.map py_upper)) "-" m b).map
          (fun h => (⟨record.id, h.start, h.«end», h.strand, h.mismatches⟩ :
            PrimerBindingHit)),
      h.record_id = record.id) := by
  refine ⟨?_, ?_, ?_⟩
  · simp only [analyze_primer_binding]
    rw [foldl_append_eq_flatten
      (fun record : SequenceRecord =>
        (scan_sequence (record.seq.map py_upper) (primer.map py_upper) "+" m b ++
         scan_sequence (record.seq.map py_upper)
           (reverse_complement (primer.map py_upper)) "-" m b).map
          (fun h => (⟨record.id, h.start, h.«end», h.strand, h.mismatches⟩ :
            PrimerBindingHit)))
      records []]
    rw [List.nil_append]
  · intro T Q str h hmem
    exact (scan_sequence_mem T Q str m b h hmem).2.2.2.1
  · intro record _ h hmem
    rcases List.mem_map.mp hmem with ⟨h0, _, rfl⟩
    rfl

/-- C4 witness: in a two-record search the hit of the second record is
stamped with that record's identifier. -/
theorem claim_C4_witness :
    (⟨"r2", 3, 6, "+", 0⟩ : PrimerBindingHit).record_id = "r2" :=
  (claim_C4_locator_ordering (String.toList "AAA")
      [⟨"r1", String.toList "AAACCC"⟩, ⟨"r2", String.toList "CCCAAA"⟩] 0 true).2.2
    ⟨"r2", String.toList "CCCAAA"⟩ (by decide) ⟨"r2", 3, 6, "+", 0⟩ (by decide)

/-- C6: the reverse complement (complement each base via the pairing of A
with T and of C with G, then reverse) is an involution on every string over
the alphabet A, C, G, T. -/
theorem claim_C6_reverse_complement_involution (seq : List Char)
    (halpha : ∀ c ∈ seq, c = 'A' ∨ c = 'C' ∨ c = 'G' ∨ c = 'T') :
    reverse_complement (reverse_complement seq) = seq :=
  reverse_complement_involutive seq

/-- C6 witness: the involution at `"ACGT"`. -/
theorem claim_C6_witness :
    reverse_complement (reverse_complement (String.toList "ACGT")) = String.toList "ACGT" :=
  claim_C6_reverse_complement_involution (String.toList "ACGT") (by decide)

/-- C7: for a non-empty primer the scanner raises no exception — the
bounds-checked embedding returns `Except.ok` of the plain result on every
template, strand, budget and gate flag — and a primer longer than the
template yields the empty hit list rather than an error. -/
theorem claim_C7_no_exception (T P : List Char) (s : String) (m : Nat) (b : Bool)
    (hP : P ≠ []) :
    scan_sequenceE T P s m b = Except.ok (scan_sequence T P s m b) ∧
    (T.length < P.length → scan_sequence T P s m b = []) := by
  refine ⟨scan_sequenceE_ok T P s m b hP, ?_⟩
  intro hlt
  rw [scan_sequence, iter_mismatch_counts, if_pos hlt]
  rfl

/-- C7 witness: a primer longer than the template gives `ok []`. -/
theorem claim_C7_witness :
    scan_sequenceE (String.toList "ACG") (String.toList "ACGTT") "+" 2 true =
      Except.ok (scan_sequence (String.toList "ACG") (String.toList "ACGTT") "+" 2 true) ∧
    scan_sequence (String.toList "ACG") (String.toList "ACGTT") "+" 2 true = [] :=
  ⟨(claim_C7_no_exception (String.toList "ACG") (String.toList "ACGTT") "+" 2 true
      (by decide)).1,
   (claim_C7_no_exception (String.toList "ACG") (String.toList "ACGTT") "+" 2 true
      (by decide)).2 (by decide)⟩

/-- C8: for every template, (non-null) position, match length and flank, the
window function returns the slice
`template[max(0, position - flank) : min(len(template), position + match_length + flank)]`,
prefixed with a three-character ellipsis exactly when the clamped left bound
is above `0` and suffixed with one exactly when the clamped right bound is
below `len(template)`, and reports
`match_offset_in_window = position - clamped_start + (3 if a left ellipsis was added else 0)`;
in particular the two documented examples hold. -/
theorem claim_C8_window_formula (seq : List Char) (pos primer_len flank : Nat) :
    (window_sequence seq (some pos) primer_len flank =
      (some ((if 0 < (max 0 ((pos : Int) - (flank : Int))).toNat then ellipsis else []) ++
          pySlice seq (max 0 ((pos : Int) - (flank : Int))).toNat
            (min seq.length (pos + primer_len + flank)) ++
          (if min seq.length (pos + primer_len + flank) < seq.length then ellipsis else [])),
        some (pos - (max 0 ((pos : Int) - (flank : Int))).toNat +
          (if 0 < (max 0 ((pos : Int) - (flank : Int))).toNat then 3 else 0)),
        some primer_len)) ∧
    window_sequence (String.toList "ACGTACGTAC") (some 0) 3 2 =
      (some (String.toList "ACGTA..."), some 0, some 3) ∧
    window_sequence (String.toList "ACGTACGTAC") (some 3) 3 2 =
      (some (String.toList "...CGTACGT..."), some 5, some 3) := by
  have hstart : (max 0 ((pos : Int) - (flank : Int))).toNat = pos - flank := by omega
  refine ⟨?_, by decide, by decide⟩
  rw [hstart]
  simp only [window_sequence]
  by_cases h1 : 0 < pos - flank <;>
    by_cases h2 : min seq.length (pos + primer_len + flank) < seq.length <;>
      simp [h1, h2, List.append_assoc]

/-- C9 counterexample: `clean_sequence_value`, the normalizer that actually
takes the strict-alphabet flag (`allow_n = false`), rejects `"ACGTX"` with
its fixed alphabet message, which does not list the offending character `X`;
and `sanitize_sequence`, the normalizer that does list offending characters,
accepts `"ACGTN"` outright even though `N` is outside the strict alphabet.
Under either reading of the claimed `normalize`, the claim fails at a
concrete input. -/
theorem claim_C9_counterexample :
    clean_sequence_value (String.toList "ACGTX") false none =
      Except.error
        "Sequence may only contain the characters A, C, G, T (no spaces or numbers)." ∧
    'X' ∉ String.toList
      "Sequence may only contain the characters A, C, G, T (no spaces or numbers)." ∧
    sanitize_sequence (String.toList "ACGTN") = Except.ok (String.toList "ACGTN") := by
  refine ⟨rfl, by decide, rfl⟩

/-- C9 amended: with `allow_n = false`, `clean_sequence_value` fails on any
cleaned input containing a character outside A, C, G, T, but with a fixed
message naming the allowed alphabet rather than the offending characters;
the character-listing behaviour lives in `sanitize_sequence`, whose alphabet
is A, C, G, T, N unconditionally: on any non-empty input whose cleaned form
contains a character outside that alphabet it fails with a message listing
exactly the offending characters, sorted and de-duplicated — in particular
`sanitize_sequence("ACGTX")` fails with a message listing `X`. -/
theorem claim_C9_amended_normalizer (raw : List Char) :
    ((∃ c ∈ cleanWhitespaceUpper raw, isACGT c = false) →
      clean_sequence_value raw false none = Except.error (alphabetMessage false)) ∧
    (raw ≠ [] → (∃ c ∈ cleanWhitespaceUpper raw, isACGTN c = false) →
      sanitize_sequence raw = Except.error (invalidCharsMessage
        (sortedUnique ((cleanWhitespaceUpper raw).filter (fun c => !isACGTN c))))) ∧
    sanitize_sequence (String.toList "ACGTX") =
      Except.error "Sequence contains invalid characters: X" ∧
    'X' ∈ String.toList "Sequence contains invalid characters: X" := by
  refine ⟨?_, ?_, rfl, by decide⟩
  · rintro ⟨c, hcmem, hc⟩
    simp only [clean_sequence_value, alphabetCheck]
    rw [if_neg]
    intro hcon
    have hall := List.all_eq_true.mp (by simpa using hcon.2) c hcmem
    rw [hc] at hall
    exact Bool.false_ne_true hall
  · rintro hraw ⟨c, hcmem, hc⟩
    rw [sanitize_sequence, if_neg (by simpa using hraw)]
    rw [if_neg]
    intro hcon
    have hall := List.all_eq_true.mp hcon.2 c hcmem
    rw [hc] at hall
    exact Bool.false_ne_true hall

/-- C9 witness: both normalizers applied to `"ACGTX"`. -/
theorem claim_C9_witness :
    clean_sequence_value (String.toList "ACGTX") false none =
      Except.error (alphabetMessage false) ∧
    sanitize_sequence (String.toList "ACGTX") =
      Except.error (invalidCharsMessage (sortedUnique
        ((cleanWhitespaceUpper (String.toList "ACGTX")).filter (fun c => !isACGTN c)))) :=
  ⟨(claim_C9_amended_normalizer (String.toList "ACGTX")).1 ⟨'X', by decide, by decide⟩,
   (claim_C9_amended_normalizer (String.toList "ACGTX")).2.1 (by decide)
     ⟨'X', by decide, by decide⟩⟩

/-- C10: `reverse_complement` is total on every string (the embedding is a
total function): it preserves length, and every character without a defined
complement (anything other than A, C, G, T) appears unchanged at the
mirrored position of the reversed output. -/
theorem claim_C10_rc_total_on_any_string (seq : List Char) :
    (reverse_complement seq).length = seq.length ∧
    (∀ i : Nat, i < seq.length →
      (seq.getD i 'A' ≠ 'A' ∧ seq.getD i 'A' ≠ 'C' ∧ seq.getD i 'A' ≠ 'G' ∧
        seq.getD i 'A' ≠ 'T') →
      (reverse_complement seq).getD (seq.length - 1 - i) 'A' = seq.getD i 'A') := by
  refine ⟨reverse_complement_length seq, ?_⟩
  intro i hi hc
  rw [reverse_complement_getD seq i hi]
  exact complement_eq_self_of_not_base _ hc.1 hc.2.1 hc.2.2.1 hc.2.2.2

/-- C10 witness: the `N` of `"NA"` survives unchanged at the mirrored
position. -/
theorem claim_C10_witness :
    (reverse_complement (String.toList "NA")).length = (String.toList "NA").length ∧
    (reverse_complement (String.toList "NA")).getD
        ((String.toList "NA").length - 1 - 0) 'A' = (String.toList "NA").getD 0 'A' :=
  ⟨(claim_C10_rc_total_on_any_string (String.toList "NA")).1,
   (claim_C10_rc_total_on_any_string (String.toList "NA")).2 0 (by decide)
     ⟨by decide, by decide, by decide, by decide⟩⟩

end Oligostore
